import Mathlib

/-!
Verification of the page-layout and pagination engine of
`polarsteps_data_parser/pdf_generator.py` (class `PDFGenerator`).

Shallow embedding conventions:
* All coordinates and sizes are rationals (`ℚ`); the Python code computes with
  floats, but every operation involved (add, sub, mul, div, max, comparisons)
  is modelled exactly.
* The page size is `letter = (612, 792)` points, as in the source
  (`self.width, self.height = letter`).
* The reportlab text-measurement service `stringWidth` is an external
  capability; it is modelled as an abstract function parameter `sw`.
* Python strings are modelled as `List Char`; `str.split()` (whitespace
  splitting that drops empty pieces) and `str.strip()` are modelled directly
  on character lists by `pyWords` and `pyStrip`.
* Fallible external calls (`ImageReader`, footer drawing) are modelled with
  `Option`/`Except`.
* The mutable `PDFGenerator` cursor state (`y_position`, `page_number`,
  `showPage` boundaries) is threaded explicitly through a `PDF` record; each
  placement operation returns the new state together with the list of cursor
  positions (`self.y_position`) observed at the moment of each content
  drawing call it performs.
-/

namespace Polarsteps

/-! ## Constants (from the `PDFGenerator` constructor defaults) -/

/-- Page width of `letter` in points (`self.width`). -/
def pageWidth : ℚ := 612

/-- Page height of `letter` in points (`self.height`). -/
def pageHeight : ℚ := 792

/-- The bottom-margin threshold used by every page-break check (`< 50`). -/
def bottomMargin : ℚ := 50

/-- Cursor reset value after a page break: `self.height - 30`. -/
def topCursor : ℚ := pageHeight - 30

/-- Usable width between the two 30-point margins: `self.width - 60`. -/
def usableWidth : ℚ := pageWidth - 60

/-- Constructor default `portrait_height = 330`. -/
def portraitHeight : ℚ := 330

/-- Constructor default `landscape_width = 250`. -/
def landscapeWidth : ℚ := 250

/-- Constructor default `side_by_side_gap = 20`. -/
def sideBySideGap : ℚ := 20

/-! ## Page & cursor state -/

/-- The mutable layout state of `PDFGenerator`: the vertical write cursor
`y_position`, the footer page counter `page_number`, and the number of page
boundaries emitted so far (`canvas.showPage()` calls). -/
structure PDF where
  y : ℚ
  page : Nat
  breaks : Nat
deriving DecidableEq, Repr

/-- State at the start of a document: `y_position = height - 30`,
`page_number = 1`, no boundaries emitted yet. -/
def initPDF : PDF := ⟨topCursor, 1, 0⟩

/-- `new_page`: emits one page boundary (`canvas.showPage()`), increments the
page counter and resets the cursor to `self.height - 30`.  The footer attempt
that precedes the boundary is modelled separately (see `newPageFull` and the
canvas-level model below); it never affects this state change. -/
def newPageS (s : PDF) : PDF := ⟨topCursor, s.page + 1, s.breaks + 1⟩

/-- The page-break check pattern shared by all placement operations:
`if self.y_position - requiredHeight < 50: self.new_page()`.
The text placements write it as `if self.y_position < 50`, i.e. with
`requiredHeight = 0`; the image placements use their draw height. -/
def ensure (h : ℚ) (s : PDF) : PDF :=
  if s.y - h < bottomMargin then newPageS s else s

/-! ## Text placements

Each operation returns the new state and the trace of cursor positions
(`self.y_position`) current at each `drawString` call. -/

/-- `heading(text)`: check `y_position < 50`, draw at `y_position`,
then `y_position -= 30`. -/
def headingOp (s : PDF) : PDF × List ℚ :=
  let s1 := ensure 0 s
  (⟨s1.y - 30, s1.page, s1.breaks⟩, [s1.y])

/-- `short_text(text)`: check `y_position < 50`, draw at `y_position`,
then `y_position -= 20`. -/
def shortTextOp (s : PDF) : PDF × List ℚ :=
  let s1 := ensure 0 s
  (⟨s1.y - 20, s1.page, s1.breaks⟩, [s1.y])

/-- `short_text_with_right(left_text, right_text)`: check `y_position < 50`,
draw the left text, then either draw the right text on the same line, or — if
`right_x <= left_end + 8` — decrement the cursor by one line and draw the
right text there, consuming a second line.  `leftW`/`rightW` are the abstract
measured widths of the two strings. -/
def shortTextWithRightOp (leftW rightW : ℚ) (s : PDF) : PDF × List ℚ :=
  let s1 := ensure 0 s
  let leftEnd := 30 + leftW
  let rightX := pageWidth - 30 - rightW
  if rightX ≤ leftEnd + 8 then
    (⟨s1.y - 40, s1.page, s1.breaks⟩, [s1.y, s1.y - 20])
  else
    (⟨s1.y - 20, s1.page, s1.breaks⟩, [s1.y, s1.y])

/-! ## Word wrapping (`wrap_text`)

`wrap_text(text, max_width)` does
`words = text.replace("\n", " <newline> ").split()` and then greedily packs
words into lines, flushing on the `<newline>` sentinel.  Python strings are
modelled as `List Char`. -/

/-- Python `str.split()` whitespace (the ASCII cases). -/
def pyIsSpace (c : Char) : Bool :=
  c = ' ' || c = '\t' || c = '\n' || c = '\r' || c = '\x0b' || c = '\x0c'

/-- Accumulator worker for Python `str.split()`: `acc` is the word currently
being scanned. -/
def wordsAux : List Char → List Char → List (List Char)
  | [], acc => if acc = [] then [] else [acc]
  | c :: cs, acc =>
    if pyIsSpace c then
      if acc = [] then wordsAux cs [] else acc :: wordsAux cs []
    else wordsAux cs (acc ++ [c])

/-- Python `text.split()`: split on whitespace runs, dropping empty pieces. -/
def pyWords (t : List Char) : List (List Char) := wordsAux t []

/-- Python `str.strip()`: drop leading and trailing whitespace. -/
def pyStrip (t : List Char) : List Char :=
  ((t.dropWhile pyIsSpace).reverse.dropWhile pyIsSpace).reverse

/-- The forced-break sentinel word `"<newline>"`. -/
def sentinel : List Char := ['<', 'n', 'e', 'w', 'l', 'i', 'n', 'e', '>']

/-- `text.replace("\n", " <newline> ")`. -/
def substNewline : List Char → List Char
  | [] => []
  | c :: cs =>
    if c = '\n' then ' ' :: (sentinel ++ (' ' :: substNewline cs))
    else c :: substNewline cs

/-- The body of the `for word in words` loop of `wrap_text`: `cur` is
`current_line`.  A sentinel word flushes the current line; otherwise
`test_line = f"{current_line} {word}".strip()` is kept if it measures within
`mw`, else the current line is flushed and the word starts a new line.  The
final `lines.append(current_line)` is the base case. -/
def wrapLoop (sw : List Char → ℚ) (mw : ℚ) : List (List Char) → List Char → List (List Char)
  | [], cur => [cur]
  | w :: ws, cur =>
    if w = sentinel then cur :: wrapLoop sw mw ws []
    else
      let test := pyStrip (cur ++ (' ' :: w))
      if sw test ≤ mw then wrapLoop sw mw ws test
      else cur :: wrapLoop sw mw ws w

/-- `wrap_text(text, max_width)` with the canvas `stringWidth` metric
abstracted as `sw`. -/
def wrap_text (sw : List Char → ℚ) (t : List Char) (mw : ℚ) : List (List Char) :=
  wrapLoop sw mw (pyWords (substNewline t)) []

/-- Re-joining a list of produced lines with single spaces (the operation the
word-wrap content-preservation property speaks about). -/
def joinLines : List (List Char) → List Char
  | [] => []
  | [l] => l
  | l :: ls => l ++ (' ' :: joinLines ls)

/-! ## `long_text` -/

/-- One line of the `for line in lines` loop of `long_text`: check
`y_position < 50` (page break plus a `setFont` re-issue, which does not move
the cursor), draw the line at `y_position`, then `y_position -= 20`. -/
def longLine (s : PDF) : PDF × List ℚ :=
  let s1 := ensure 0 s
  (⟨s1.y - 20, s1.page, s1.breaks⟩, [s1.y])

/-- Fold of `longLine` over the wrapped lines, concatenating draw traces. -/
def longLinesRun : List (List Char) → PDF → PDF × List ℚ
  | [], s => (s, [])
  | _ :: ls, s =>
    let p := longLine s
    let q := longLinesRun ls p.1
    (q.1, p.2 ++ q.2)

/-- `long_text(text)`: `None` is a no-op; otherwise a 10-unit pre-gap, the
wrapped lines (each with its own page-break check), then a 20-unit post-gap. -/
def longTextOp (sw : List Char → ℚ) (t : Option (List Char)) (s : PDF) : PDF × List ℚ :=
  match t with
  | none => (s, [])
  | some txt =>
    let s1 : PDF := ⟨s.y - 10, s.page, s.breaks⟩
    let r := longLinesRun (wrap_text sw txt usableWidth) s1
    (⟨r.1.y - 20, r.1.page, r.1.breaks⟩, r.2)

/-! ## Single-image placement (`photo`) -/

/-- The orientation/override sizing of `photo` before the usable-width cap:
portrait (`img_height > img_width`) uses `photo_height` or the configured
portrait height, width derived from the aspect ratio; landscape/square uses
`photo_width` or the configured landscape width, height derived.  Returns
`(draw_width, draw_height)`. -/
def drawSizeRaw (w h : ℚ) (pw ph : Option ℚ) : ℚ × ℚ :=
  let aspect := h / w
  if h > w then
    let dh := ph.getD portraitHeight
    (dh / aspect, dh)
  else
    let dw := pw.getD landscapeWidth
    (dw, dw * aspect)

/-- The usable-width cap of `photo`: if `draw_width > width - 60`, scale both
dimensions by `(width - 60) / draw_width`. -/
def capWidth (p : ℚ × ℚ) : ℚ × ℚ :=
  if p.1 > usableWidth then
    let scale := usableWidth / p.1
    (p.1 * scale, p.2 * scale)
  else p

/-- Final draw size of `photo`. -/
def drawSize (w h : ℚ) (pw ph : Option ℚ) : ℚ × ℚ :=
  capWidth (drawSizeRaw w h pw ph)

/-- `photo(photo_path, ...)` for an image of native size `w × h`: compute the
draw size, check `y_position - draw_height < 50`, draw the bordered image
(cursor unchanged during the draw), then
`y_position = y_position - draw_height - 20`.  Horizontal centering does not
affect the cursor and is not modelled here. -/
def photoOp (w h : ℚ) (pw ph : Option ℚ) (s : PDF) : PDF × List ℚ :=
  let d := drawSize w h pw ph
  let s1 := ensure d.2 s
  (⟨s1.y - d.2 - 20, s1.page, s1.breaks⟩, [s1.y])

/-! ## Side-by-side placement (`photo_side_by_side`) -/

/-- The geometry computed by the portrait branch of `photo_side_by_side` for
images of native sizes `iw1 × ih1` and `iw2 × ih2`: shared target height,
per-image widths from the aspect ratios, the group-overflow rescale (which
multiplies the four image dimensions but not the gap), the `total_width`
variable as the source leaves it, and the x positions of the two images. -/
structure PairLayout where
  x1 : ℚ
  w1 : ℚ
  h1 : ℚ
  x2 : ℚ
  w2 : ℚ
  h2 : ℚ
  gap : ℚ
  totalWidth : ℚ
deriving DecidableEq, Repr

def sideBySideLayout (iw1 ih1 iw2 ih2 : ℚ) (ph gapOpt : Option ℚ) (centered : Bool) : PairLayout :=
  let aspect1 := ih1 / iw1
  let aspect2 := ih2 / iw2
  let gap := gapOpt.getD sideBySideGap
  let target := ph.getD portraitHeight
  let h1 := target
  let w1 := target / aspect1
  let h2 := target
  let w2 := target / aspect2
  let total := w1 + gap + w2
  if total > usableWidth then
    let scale := usableWidth / total
    let w1s := w1 * scale
    let h1s := h1 * scale
    let w2s := w2 * scale
    let h2s := h2 * scale
    let xLeft := if centered then (pageWidth - usableWidth) / 2 else 30
    ⟨xLeft, w1s, h1s, xLeft + w1s + gap, w2s, h2s, gap, usableWidth⟩
  else
    let xLeft := if centered then (pageWidth - total) / 2 else 30
    ⟨xLeft, w1, h1, xLeft + w1 + gap, w2, h2, gap, total⟩

/-- `photo_side_by_side(p1, p2, ...)`: if either image is not portrait, fall
back to two stacked `photo` calls (passing `photo_height` through); otherwise
lay both images out side by side, check
`y_position - pair_height < 50` with `pair_height = max(h1, h2)`, draw both
images, then `y_position = y_position - pair_height - 20`. -/
def photoPairOp (iw1 ih1 iw2 ih2 : ℚ) (ph gapOpt : Option ℚ) (centered : Bool) (s : PDF) : PDF × List ℚ :=
  if ih1 > iw1 ∧ ih2 > iw2 then
    let L := sideBySideLayout iw1 ih1 iw2 ih2 ph gapOpt centered
    let pairH := max L.h1 L.h2
    let s1 := ensure pairH s
    (⟨s1.y - pairH - 20, s1.page, s1.breaks⟩, [s1.y, s1.y])
  else
    let p := photoOp iw1 ih1 none ph s
    let q := photoOp iw2 ih2 none ph p.1
    (q.1, p.2 ++ q.2)

/-! ## Sequences of placement operations -/

/-- A placement operation with its parameters: text widths abstracted to the
measured values, images to their native `w × h` sizes and the optional
overrides of `photo` / `photo_side_by_side`. -/
inductive Op where
  | heading : Op
  | shortText : Op
  | shortTextRight (leftW rightW : ℚ) : Op
  | longText (t : Option (List Char)) : Op
  | photo (w h : ℚ) (pw ph : Option ℚ) : Op
  | photoPair (w1 h1 w2 h2 : ℚ) (ph gap : Option ℚ) (centered : Bool) : Op

/-- Run one placement operation. -/
def runOp (sw : List Char → ℚ) : Op → PDF → PDF × List ℚ
  | .heading, s => headingOp s
  | .shortText, s => shortTextOp s
  | .shortTextRight lw rw, s => shortTextWithRightOp lw rw s
  | .longText t, s => longTextOp sw t s
  | .photo w h pw ph, s => photoOp w h pw ph s
  | .photoPair w1 h1 w2 h2 ph gap c, s => photoPairOp w1 h1 w2 h2 ph gap c s

/-- Run a sequence of placement operations, concatenating draw traces. -/
def runOps (sw : List Char → ℚ) : List Op → PDF → PDF × List ℚ
  | [], s => (s, [])
  | op :: ops, s =>
    let p := runOp sw op s
    let q := runOps sw ops p.1
    (q.1, p.2 ++ q.2)

/-- Well-formedness of an operation's parameters: images have positive native
width and nonnegative native height (Python would raise `ZeroDivisionError`
on zero width), and size overrides are nonnegative. -/
def Op.valid : Op → Prop
  | .photo w h pw ph => 0 < w ∧ 0 ≤ h ∧ (∀ x ∈ pw, 0 ≤ x) ∧ (∀ x ∈ ph, 0 ≤ x)
  | .photoPair w1 h1 w2 h2 ph gap _ =>
      0 < w1 ∧ 0 ≤ h1 ∧ 0 < w2 ∧ 0 ≤ h2 ∧ (∀ x ∈ ph, 0 ≤ x) ∧ (∀ x ∈ gap, 0 ≤ x)
  | _ => True

/-! ## The photo pairing scan of `generate_step_pages`

A photo is modelled by `Option (ℚ × ℚ)`: `some (w, h)` when
`ImageReader(path).getSize()` succeeds with native size `w × h`, `none` when
probing raises. -/

/-- A placement event produced by the scan. -/
inductive PEv where
  | single (w h : ℚ) : PEv
  | pair (w1 h1 w2 h2 : ℚ) : PEv
deriving Repr

/-- Image dimensions covered by one event, in placement order. -/
def evImgs : PEv → List (ℚ × ℚ)
  | .single w h => [(w, h)]
  | .pair w1 h1 w2 h2 => [(w1, h1), (w2, h2)]

/-- The single-image fallback `self.photo(photos[i], centered=True)`: `photo`
constructs `ImageReader(path)` itself, so an unreadable image raises there and
the exception propagates (it is outside the scan's `try`). -/
def placeSingle : Option (ℚ × ℚ) → Except Unit PEv
  | none => .error ()
  | some d => .ok (.single d.1 d.2)

/-- The `while i < len(photos)` scan of `generate_step_pages`: probe the next
two photos inside a `try`; if both probes succeed and both images are portrait
(`h > w`), place them as one side-by-side block and advance by two; otherwise
(including when probing raises) place the first photo alone and re-evaluate
from the next one. -/
def scanPhotos : List (Option (ℚ × ℚ)) → Except Unit (List PEv)
  | [] => .ok []
  | [p] => do
    let e ← placeSingle p
    pure [e]
  | p :: q :: rest =>
    match p, q with
    | some a, some b =>
      if a.2 > a.1 ∧ b.2 > b.1 then do
        let es ← scanPhotos rest
        pure (.pair a.1 a.2 b.1 b.2 :: es)
      else do
        let e ← placeSingle p
        let es ← scanPhotos (q :: rest)
        pure (e :: es)
    | _, _ => do
      let e ← placeSingle p
      let es ← scanPhotos (q :: rest)
      pure (e :: es)

/-! ## Font selection -/

/-- The Helvetica family names used by the class constants. -/
def helvetica : String := "Helvetica"

def helveticaBold : String := "Helvetica-Bold"

/-- `MAIN_FONT`: `("Helvetica", 12)` by default; `register_font` replaces it
with `(name, 12)` where `name` is the registered fallback font identifier.
`reg` is `some name` once a fallback font has been registered. -/
def mainFont (reg : Option String) : String × ℚ := (reg.getD helvetica, 12)

/-- `BOLD_FONT = ("Helvetica-Bold", 12)`. -/
def boldFontSpec : String × ℚ := (helveticaBold, 12)

/-- `HEADING_FONT = ("Helvetica-Bold", 16)`. -/
def headingFontSpec : String × ℚ := (helveticaBold, 16)

/-- `TITLE_HEADING_FONT = ("Helvetica-Bold", 36)`. -/
def titleHeadingFontSpec : String × ℚ := (helveticaBold, 36)

/-- `any(ord(ch) > 127 for ch in text)`. -/
def nonAscii (t : List Char) : Bool := t.any (fun c => 127 < c.toNat)

/-- Font selected by `heading`. -/
def headingFontFor (reg : Option String) (t : List Char) : String × ℚ :=
  if nonAscii t then ((mainFont reg).1, headingFontSpec.2) else headingFontSpec

/-- Font selected by `title_heading`. -/
def titleFontFor (reg : Option String) (t : List Char) : String × ℚ :=
  if nonAscii t then ((mainFont reg).1, titleHeadingFontSpec.2) else titleHeadingFontSpec

/-- Font selected by `short_text` (also the left/right font logic of
`short_text_with_right` when the corresponding bold flag is set). -/
def shortTextFontFor (reg : Option String) (t : List Char) (bold : Bool) : String × ℚ :=
  if bold then
    if nonAscii t then ((mainFont reg).1, boldFontSpec.2) else boldFontSpec
  else mainFont reg

/-- Font used by `long_text` for every wrapped line. -/
def longTextFontFor (reg : Option String) : String × ℚ := mainFont reg

/-- Font selected by `_draw_footer` for the left (trip name) field. -/
def footerLeftFontFor (reg : Option String) (t : List Char) : String × ℚ :=
  if nonAscii t then ((mainFont reg).1, 8) else (helvetica, 8)

/-- Font used by `_draw_footer` for the center and right fields. -/
def footerFixedFont : String × ℚ := (helvetica, 8)

/-! ## Canvas graphics state

The reportlab canvas is an external drawing surface; we model the part of its
graphics state the code manipulates.  Pure drawing primitives (`line`,
`drawString`, `rect`, `drawImage`) do not change the graphics state and are
modelled as identities; `showPage` emits one page boundary and resets the
graphics state to the page default, as reportlab does (`showPage` calls
`init_graphics_state`, and every PDF page's content stream starts from the
default graphics state — "all state changes are forgotten" across a page).
-/

structure GState where
  strokeColor : ℚ × ℚ × ℚ
  fillColor : ℚ × ℚ × ℚ
  lineWidth : ℚ
  font : String × ℚ
deriving DecidableEq, Repr

structure CanvasSt where
  g : GState
  stack : List GState
  pagesEmitted : Nat
deriving DecidableEq, Repr

def setStrokeColorRGB (col : ℚ × ℚ × ℚ) (c : CanvasSt) : CanvasSt :=
  { c with g := { c.g with strokeColor := col } }

def setFillColorRGB (col : ℚ × ℚ × ℚ) (c : CanvasSt) : CanvasSt :=
  { c with g := { c.g with fillColor := col } }

def setLineWidth (wd : ℚ) (c : CanvasSt) : CanvasSt :=
  { c with g := { c.g with lineWidth := wd } }

def setFont (f : String × ℚ) (c : CanvasSt) : CanvasSt :=
  { c with g := { c.g with font := f } }

def saveState (c : CanvasSt) : CanvasSt :=
  { c with stack := c.g :: c.stack }

def restoreState (c : CanvasSt) : CanvasSt :=
  match c.stack with
  | [] => c
  | g0 :: rest => { c with g := g0, stack := rest }

/-- The default graphics state every page starts from: black stroke and fill,
line width 1, the base font.  reportlab's `init_graphics_state` restores
these when `showPage` closes a page (and the PDF imaging model starts each
page's content stream at this default state). -/
def defaultGState : GState := ⟨(0, 0, 0), (0, 0, 0), 1, (helvetica, 12)⟩

/-- `canvas.showPage()`: emits one page boundary and resets the graphics
state to the page default. -/
def showPage (c : CanvasSt) : CanvasSt :=
  { c with g := defaultGState, pagesEmitted := c.pagesEmitted + 1 }

/-- `_draw_footer`: early return when the trip name is falsy (empty);
otherwise set the stroke color to black and the line width to 0.5 (no
save/restore scoping), draw the separator line, then set the font and draw
each of the three fields. -/
def drawFooterC (reg : Option String) (tripName : List Char) (c : CanvasSt) : CanvasSt :=
  if tripName = [] then c
  else
    let c1 := setStrokeColorRGB (0, 0, 0) c
    let c2 := setLineWidth (1 / 2) c1
    let c3 := setFont (footerLeftFontFor reg tripName) c2
    let c4 := setFont footerFixedFont c3
    let c5 := setFont footerFixedFont c4
    c5

/-- `_draw_image_with_border`: wraps its fill/stroke/line-width changes in
`saveState` / `restoreState`. -/
def drawImageWithBorderC (borderW : ℚ) (c : CanvasSt) : CanvasSt :=
  let c1 := saveState c
  let c2 := setFillColorRGB (1, 1, 1) c1
  let c3 := setLineWidth borderW c2
  let c4 := setStrokeColorRGB (0, 0, 0) c3
  restoreState c4

/-- The canvas-level effect of `new_page` (footer, then `showPage`). -/
def newPageCanvas (reg : Option String) (tripName : List Char) (c : CanvasSt) : CanvasSt :=
  showPage (drawFooterC reg tripName c)

/-! ## `new_page` error handling

`new_page` runs `self._draw_footer()` inside `try ... except Exception: pass`.
The footer attempt is modelled as an `Except Unit CanvasSt`: on success the
canvas produced by the footer is used, on failure the exception is swallowed
and the canvas is left as it was.  The rollover itself then always happens. -/
def newPageFull (footerAttempt : Except Unit CanvasSt) (c : CanvasSt) (s : PDF) :
    Except Unit (CanvasSt × PDF) :=
  let c1 :=
    match footerAttempt with
    | .ok cOk => cOk
    | .error _ => c
  .ok (showPage c1, ⟨topCursor, s.page + 1, s.breaks + 1⟩)

/-! ## Numeric values of the named constants -/

theorem topCursor_eq : topCursor = 762 := by norm_num [topCursor, pageHeight]

theorem bottomMargin_eq : bottomMargin = 50 := rfl

theorem usableWidth_eq : usableWidth = 552 := by norm_num [usableWidth, pageWidth]

/-! ## C9: `new_page` swallows footer failures -/

/-- C9: `new_page` never raises due to a footer failure: for every outcome of
the footer attempt (including failure) the call returns normally, and on
failure the exception is suppressed while the rollover still proceeds — one
page boundary is emitted, the page counter is incremented, and the cursor is
reset to `height - 30`. -/
theorem new_page_swallows_footer_failure :
    ∀ (fa : Except Unit CanvasSt) (c : CanvasSt) (s : PDF),
      (∃ out, newPageFull fa c s = .ok out) ∧
      newPageFull (.error ()) c s = .ok (showPage c, newPageS s) ∧
      ∀ cOk, newPageFull (.ok cOk) c s = .ok (showPage cOk, newPageS s) := by
  intro fa c s
  exact ⟨⟨_, rfl⟩, rfl, fun cOk => rfl⟩

/-! ## C10: the footer's graphics-state changes are unscoped -/

/-- An arbitrary canvas state used to instantiate canvas theorems. -/
def canvas0 : CanvasSt := ⟨⟨(1, 0, 0), (0, 1, 0), 3, (helvetica, 12)⟩, [], 0⟩

/-- C10 counterexample: the footer's graphics-state settings do NOT persist
across a page rollover.  On the page being left `_draw_footer` does set the
line width to 0.5, but the `showPage` boundary that `new_page` then emits
resets the graphics state to the page default, so after the rollover the
canvas line width is the default 1, not 0.5, and nothing of the footer's
unscoped changes is observable by draws on the new page. -/
theorem footer_leak_rollover_counterexample :
    (drawFooterC none ['a'] canvas0).g.lineWidth = 1 / 2 ∧
    (newPageCanvas none ['a'] canvas0).g = defaultGState ∧
    (newPageCanvas none ['a'] canvas0).g.lineWidth = 1 ∧
    (1 : ℚ) ≠ 1 / 2 := by
  refine ⟨?_, rfl, rfl, by norm_num⟩
  have hfoot :
      drawFooterC none ['a'] canvas0 =
        setFont footerFixedFont (setFont footerFixedFont
          (setFont (footerLeftFontFor none ['a'])
            (setLineWidth (1 / 2) (setStrokeColorRGB (0, 0, 0) canvas0)))) := by
    unfold drawFooterC
    rw [if_neg (by decide)]
  rw [hfoot]
  simp [setFont, setLineWidth, setStrokeColorRGB]

/-- C10 amended: `_draw_footer` sets the stroke color to black and the line
width to 0.5 with no save/restore scoping — the save-state stack is untouched
and the settings remain in the canvas graphics state for the rest of the page
being left (including after the document-end footer, which is followed only
by `save()`); by contrast `_draw_image_with_border` wraps its
fill/stroke/line-width changes in `saveState`/`restoreState` and leaves the
whole canvas state exactly as it found it.  The settings do not survive a
page rollover: the `showPage` boundary resets the graphics state to the page
default, so subsequent pages start from the default state. -/
theorem footer_graphics_state_scoping :
    ∀ (reg : Option String) (name : List Char) (c : CanvasSt), name ≠ [] →
      ((drawFooterC reg name c).g.strokeColor = (0, 0, 0) ∧
       (drawFooterC reg name c).g.lineWidth = 1 / 2 ∧
       (drawFooterC reg name c).stack = c.stack) ∧
      (∀ bw c2, drawImageWithBorderC bw c2 = c2) ∧
      ((newPageCanvas reg name c).g = defaultGState ∧
       (newPageCanvas reg name c).stack = c.stack ∧
       (newPageCanvas reg name c).pagesEmitted = c.pagesEmitted + 1) := by
  intro reg name c hname
  have hfoot :
      drawFooterC reg name c =
        setFont footerFixedFont (setFont footerFixedFont
          (setFont (footerLeftFontFor reg name)
            (setLineWidth (1 / 2) (setStrokeColorRGB (0, 0, 0) c)))) := by
    unfold drawFooterC
    rw [if_neg hname]
  refine ⟨?_, ?_, rfl, ?_, ?_⟩
  · rw [hfoot]
    simp [setFont, setLineWidth, setStrokeColorRGB]
  · intro bw c2
    unfold drawImageWithBorderC restoreState saveState setStrokeColorRGB setLineWidth setFillColorRGB
    simp
  · unfold newPageCanvas showPage
    rw [hfoot]
    simp [setFont, setLineWidth, setStrokeColorRGB]
  · unfold newPageCanvas showPage
    rw [hfoot]
    simp [setFont, setLineWidth, setStrokeColorRGB]

/-- Witness for `footer_graphics_state_scoping` at a concrete canvas state
and nonempty trip name. -/
theorem footer_graphics_state_scoping_witness :
    ((drawFooterC none ['a'] canvas0).g.strokeColor = (0, 0, 0) ∧
     (drawFooterC none ['a'] canvas0).g.lineWidth = 1 / 2 ∧
     (drawFooterC none ['a'] canvas0).stack = canvas0.stack) ∧
    (∀ bw c2, drawImageWithBorderC bw c2 = c2) ∧
    ((newPageCanvas none ['a'] canvas0).g = defaultGState ∧
     (newPageCanvas none ['a'] canvas0).stack = canvas0.stack ∧
     (newPageCanvas none ['a'] canvas0).pagesEmitted = canvas0.pagesEmitted + 1) :=
  footer_graphics_state_scoping none ['a'] canvas0 (by decide)

/-! ## C8: the fallback-font rule -/

/-- A registered fallback font identifier (`register_font` names registered
fonts `TTF-<stem>`). -/
def emojiFontId : String := "TTF-NotoEmoji"

/-- C8 counterexample: after a fallback font is registered, pure 7-bit-ASCII
body text (`short_text` without `bold`) is drawn in the registered font, not
in the body role's default `("Helvetica", 12)` — because `register_font`
replaces `MAIN_FONT` itself. -/
theorem fallback_font_rule_counterexample :
    shortTextFontFor (some emojiFontId) ['a', 'b', 'c'] false ≠ mainFont none ∧
    shortTextFontFor (some emojiFontId) ['a', 'b', 'c'] false = (emojiFontId, 12) ∧
    mainFont none = (helvetica, 12) := by
  refine ⟨?_, ?_, ?_⟩ <;> decide

/-- C8 amended: registering a fallback font replaces the body font itself, so
body text (`short_text` non-bold, `long_text`) is always drawn in the
registered font, ASCII or not; the bold, heading, title-heading and
footer-left roles switch to the current main-font identifier at the role's
point size exactly when the text contains a codepoint above 127 (if no
fallback font was registered that identifier is plain `Helvetica`, not the
role's bold default), and keep the role's default font for pure-ASCII text. -/
theorem fallback_font_rule_amended :
    (∀ f t, shortTextFontFor (some f) t false = (f, 12)) ∧
    (∀ reg, longTextFontFor reg = mainFont reg) ∧
    (∀ reg t, nonAscii t = false →
      headingFontFor reg t = (helveticaBold, 16) ∧
      titleFontFor reg t = (helveticaBold, 36) ∧
      shortTextFontFor reg t true = (helveticaBold, 12) ∧
      footerLeftFontFor reg t = (helvetica, 8)) ∧
    (∀ f t, nonAscii t = true →
      headingFontFor (some f) t = (f, 16) ∧
      titleFontFor (some f) t = (f, 36) ∧
      shortTextFontFor (some f) t true = (f, 12) ∧
      footerLeftFontFor (some f) t = (f, 8)) ∧
    (∀ t, nonAscii t = true →
      headingFontFor none t = (helvetica, 16) ∧
      titleFontFor none t = (helvetica, 36) ∧
      shortTextFontFor none t true = (helvetica, 12) ∧
      footerLeftFontFor none t = (helvetica, 8)) := by
  refine ⟨?_, ?_, ?_, ?_, ?_⟩
  · intro f t
    simp [shortTextFontFor, mainFont]
  · intro reg
    rfl
  · intro reg t h
    simp [headingFontFor, titleFontFor, shortTextFontFor, footerLeftFontFor, h,
      headingFontSpec, titleHeadingFontSpec, boldFontSpec]
  · intro f t h
    simp [headingFontFor, titleFontFor, shortTextFontFor, footerLeftFontFor, h,
      headingFontSpec, titleHeadingFontSpec, boldFontSpec, mainFont]
  · intro t h
    simp [headingFontFor, titleFontFor, shortTextFontFor, footerLeftFontFor, h,
      headingFontSpec, titleHeadingFontSpec, boldFontSpec, mainFont, helvetica]

/-- Witness for `fallback_font_rule_amended` at concrete inputs. -/
theorem fallback_font_rule_amended_witness :
    (headingFontFor (some emojiFontId) ['é'] = (emojiFontId, 16) ∧
     titleFontFor (some emojiFontId) ['é'] = (emojiFontId, 36) ∧
     shortTextFontFor (some emojiFontId) ['é'] true = (emojiFontId, 12) ∧
     footerLeftFontFor (some emojiFontId) ['é'] = (emojiFontId, 8)) ∧
    (headingFontFor (some emojiFontId) ['a'] = (helveticaBold, 16) ∧
     titleFontFor (some emojiFontId) ['a'] = (helveticaBold, 36) ∧
     shortTextFontFor (some emojiFontId) ['a'] true = (helveticaBold, 12) ∧
     footerLeftFontFor (some emojiFontId) ['a'] = (helvetica, 8)) :=
  ⟨fallback_font_rule_amended.2.2.2.1 emojiFontId ['é'] (by decide),
   fallback_font_rule_amended.2.2.1 (some emojiFontId) ['a'] (by decide)⟩

/-! ## C7: `photo` size overrides -/

/-- C7 counterexample: in `photo`, a portrait image (here 100 × 200) called
with an explicit `photo_width = 500` is NOT drawn at that width: the portrait
branch only consults `photo_height`, so the pre-cap draw size is
`(165, 330)` (the configured portrait height 330 and the derived width).
Dually, a landscape image (300 × 100) with an explicit `photo_height = 400`
keeps the landscape default width 250 and derived height 100. -/
theorem photo_override_counterexample :
    (drawSizeRaw 100 200 (some 500) none).1 ≠ 500 ∧
    drawSizeRaw 100 200 (some 500) none = (165, 330) ∧
    (drawSizeRaw 300 100 none (some 400)).2 ≠ 400 ∧
    drawSizeRaw 300 100 none (some 400) = (250, 250 / 3) := by
  refine ⟨?_, ?_, ?_, ?_⟩ <;>
    norm_num [drawSizeRaw, portraitHeight, landscapeWidth]

/-- C7 amended: the override that matches the image's orientation takes
precedence over the orientation default — a portrait image with an explicit
`photo_height` is sized at exactly that height (before the usable-width cap)
and a landscape image with an explicit `photo_width` at exactly that width —
while the crossed overrides (`photo_width` for a portrait image,
`photo_height` for a landscape image) are ignored entirely. -/
theorem photo_override_precedence :
    (∀ w h pw H, h > w → (drawSizeRaw w h pw (some H)).2 = H) ∧
    (∀ w h ph W, ¬(h > w) → (drawSizeRaw w h (some W) ph).1 = W) ∧
    (∀ w h pw ph, h > w → drawSizeRaw w h pw ph = drawSizeRaw w h none ph) ∧
    (∀ w h pw ph, ¬(h > w) → drawSizeRaw w h pw ph = drawSizeRaw w h pw none) := by
  refine ⟨?_, ?_, ?_, ?_⟩
  · intro w h pw H hp
    simp [drawSizeRaw, hp]
  · intro w h ph W hp
    simp [drawSizeRaw, hp]
  · intro w h pw ph hp
    simp [drawSizeRaw, hp]
  · intro w h pw ph hp
    simp [drawSizeRaw, hp]

/-- Witness for `photo_override_precedence` at concrete inputs. -/
theorem photo_override_precedence_witness :
    (drawSizeRaw 1 2 none (some 5)).2 = 5 ∧ (drawSizeRaw 2 1 (some 7) none).1 = 7 :=
  ⟨photo_override_precedence.1 1 2 none 5 (by norm_num),
   photo_override_precedence.2.1 2 1 none 7 (by norm_num)⟩

/-! ## C6: the side-by-side overflow rescale does not scale the gap -/

/-- C6 (code bug evidence): for two portrait 300 × 330 images at the default
portrait height 330 and gap 20, the target widths are 300 + 20 + 300 = 620,
exceeding the usable width 552, so the overflow rescale fires — but only the
image dimensions are multiplied by the scale while the 20-point gap is not,
so the drawn span `x2 + w2 - x1` is `17180/31 ≈ 554.19`, strictly wider than
the usable width 552 that the source's own `total_width` variable records
(and uses for centering).  Each image's aspect ratio is preserved. -/
theorem side_by_side_gap_unscaled :
    (sideBySideLayout 300 330 300 330 none none true).totalWidth = usableWidth ∧
    (sideBySideLayout 300 330 300 330 none none true).x2 +
        (sideBySideLayout 300 330 300 330 none none true).w2 -
        (sideBySideLayout 300 330 300 330 none none true).x1 = 17180 / 31 ∧
    usableWidth < 17180 / 31 ∧
    (sideBySideLayout 300 330 300 330 none none true).gap = 20 ∧
    (sideBySideLayout 300 330 300 330 none none true).h1 * 300 =
      (sideBySideLayout 300 330 300 330 none none true).w1 * 330 := by
  have hL : sideBySideLayout 300 330 300 330 none none true =
      ⟨30, 8280 / 31, 9108 / 31, 9830 / 31, 8280 / 31, 9108 / 31, 20, 552⟩ := by
    norm_num [sideBySideLayout, portraitHeight, sideBySideGap, usableWidth, pageWidth]
  rw [hL]
  refine ⟨?_, ?_, ?_, ?_, ?_⟩ <;> norm_num [usableWidth, pageWidth]

/-! ## C1: page-break check before every draw -/

/-- C1: every placement operation performs its page-break check before
drawing: whenever the cursor minus the height the source requires for the
block (the draw height for `photo` / `photo_side_by_side`; the text
placements compare the bare cursor, i.e. use required height 0) falls below
the bottom margin 50, exactly one page boundary is emitted and the cursor is
reset to `height - 30 = 762` before the draw proceeds — every draw of the
placement then happens at the reset cursor; when space suffices, zero page
boundaries are emitted and the draws happen at the incoming cursor. -/
theorem page_break_check_contract :
    (∀ s h, s.y - h < bottomMargin → ensure h s = ⟨topCursor, s.page + 1, s.breaks + 1⟩) ∧
    (∀ s h, ¬s.y - h < bottomMargin → ensure h s = s) ∧
    (∀ s, s.y < bottomMargin →
      headingOp s = (⟨topCursor - 30, s.page + 1, s.breaks + 1⟩, [topCursor])) ∧
    (∀ s, ¬s.y < bottomMargin → headingOp s = (⟨s.y - 30, s.page, s.breaks⟩, [s.y])) ∧
    (∀ s, s.y < bottomMargin →
      shortTextOp s = (⟨topCursor - 20, s.page + 1, s.breaks + 1⟩, [topCursor])) ∧
    (∀ s, ¬s.y < bottomMargin → shortTextOp s = (⟨s.y - 20, s.page, s.breaks⟩, [s.y])) ∧
    (∀ lw rw s, s.y < bottomMargin →
      (shortTextWithRightOp lw rw s).1.breaks = s.breaks + 1 ∧
      (shortTextWithRightOp lw rw s).2.head? = some topCursor) ∧
    (∀ lw rw s, ¬s.y < bottomMargin →
      (shortTextWithRightOp lw rw s).1.breaks = s.breaks ∧
      (shortTextWithRightOp lw rw s).2.head? = some s.y) ∧
    (∀ s, s.y < bottomMargin →
      longLine s = (⟨topCursor - 20, s.page + 1, s.breaks + 1⟩, [topCursor])) ∧
    (∀ s, ¬s.y < bottomMargin → longLine s = (⟨s.y - 20, s.page, s.breaks⟩, [s.y])) ∧
    (∀ w h pw ph s, s.y - (drawSize w h pw ph).2 < bottomMargin →
      (photoOp w h pw ph s).1.breaks = s.breaks + 1 ∧
      (photoOp w h pw ph s).2 = [topCursor]) ∧
    (∀ w h pw ph s, ¬s.y - (drawSize w h pw ph).2 < bottomMargin →
      (photoOp w h pw ph s).1.breaks = s.breaks ∧ (photoOp w h pw ph s).2 = [s.y]) ∧
    (∀ w1 h1 w2 h2 ph gap c s, h1 > w1 → h2 > w2 →
      (s.y - max (sideBySideLayout w1 h1 w2 h2 ph gap c).h1
          (sideBySideLayout w1 h1 w2 h2 ph gap c).h2 < bottomMargin →
        (photoPairOp w1 h1 w2 h2 ph gap c s).1.breaks = s.breaks + 1 ∧
        (photoPairOp w1 h1 w2 h2 ph gap c s).2 = [topCursor, topCursor]) ∧
      (¬s.y - max (sideBySideLayout w1 h1 w2 h2 ph gap c).h1
          (sideBySideLayout w1 h1 w2 h2 ph gap c).h2 < bottomMargin →
        (photoPairOp w1 h1 w2 h2 ph gap c s).1.breaks = s.breaks ∧
        (photoPairOp w1 h1 w2 h2 ph gap c s).2 = [s.y, s.y])) := by
  have hens : ∀ (s : PDF) (h : ℚ), s.y - h < bottomMargin →
      ensure h s = ⟨topCursor, s.page + 1, s.breaks + 1⟩ := by
    intro s h hc
    simp [ensure, newPageS, hc]
  have hens2 : ∀ (s : PDF) (h : ℚ), ¬s.y - h < bottomMargin → ensure h s = s := by
    intro s h hc
    simp [ensure, hc]
  have h0 : ∀ s : PDF, s.y - 0 = s.y := fun s => sub_zero s.y
  refine ⟨hens, hens2, ?_, ?_, ?_, ?_, ?_, ?_, ?_, ?_, ?_, ?_, ?_⟩
  · intro s hc
    rw [headingOp, hens s 0 (by rw [h0]; exact hc)]
  · intro s hc
    rw [headingOp, hens2 s 0 (by rw [h0]; exact hc)]
  · intro s hc
    rw [shortTextOp, hens s 0 (by rw [h0]; exact hc)]
  · intro s hc
    rw [shortTextOp, hens2 s 0 (by rw [h0]; exact hc)]
  · intro lw rw' s hc
    rw [shortTextWithRightOp, hens s 0 (by rw [h0]; exact hc)]
    split <;> exact ⟨rfl, rfl⟩
  · intro lw rw' s hc
    rw [shortTextWithRightOp, hens2 s 0 (by rw [h0]; exact hc)]
    split <;> exact ⟨rfl, rfl⟩
  · intro s hc
    rw [longLine, hens s 0 (by rw [h0]; exact hc)]
  · intro s hc
    rw [longLine, hens2 s 0 (by rw [h0]; exact hc)]
  · intro w h pw ph s hc
    rw [photoOp, hens s (drawSize w h pw ph).2 hc]
    exact ⟨rfl, rfl⟩
  · intro w h pw ph s hc
    rw [photoOp, hens2 s (drawSize w h pw ph).2 hc]
    exact ⟨rfl, rfl⟩
  · intro w1 h1 w2 h2 ph gap c s hp1 hp2
    constructor
    · intro hc
      simp only [photoPairOp, if_pos (show h1 > w1 ∧ h2 > w2 from ⟨hp1, hp2⟩)]
      rw [hens s _ hc]
      exact ⟨rfl, rfl⟩
    · intro hc
      simp only [photoPairOp, if_pos (show h1 > w1 ∧ h2 > w2 from ⟨hp1, hp2⟩)]
      rw [hens2 s _ hc]
      exact ⟨rfl, rfl⟩

/-- Witness for `page_break_check_contract`: a triggering and a
non-triggering instance for the check and for a text and an image placement. -/
theorem page_break_check_contract_witness :
    ensure 0 ⟨40, 1, 0⟩ = ⟨topCursor, 1 + 1, 0 + 1⟩ ∧
    ensure 0 ⟨100, 1, 0⟩ = ⟨100, 1, 0⟩ ∧
    headingOp ⟨40, 1, 0⟩ = (⟨topCursor - 30, 1 + 1, 0 + 1⟩, [topCursor]) ∧
    shortTextOp ⟨100, 1, 0⟩ = (⟨100 - 20, 1, 0⟩, [100]) ∧
    (photoOp 1 2 none none ⟨400, 1, 0⟩).1.breaks = 0 ∧
    (photoOp 1 2 none none ⟨400, 1, 0⟩).2 = [400] :=
  have hq : ¬(400 : ℚ) - (drawSize 1 2 none none).2 < bottomMargin := by
    norm_num [drawSize, drawSizeRaw, capWidth, portraitHeight, usableWidth,
      pageWidth, bottomMargin]
  ⟨page_break_check_contract.1 ⟨40, 1, 0⟩ 0 (by norm_num [bottomMargin]),
   page_break_check_contract.2.1 ⟨100, 1, 0⟩ 0 (by norm_num [bottomMargin]),
   page_break_check_contract.2.2.1 ⟨40, 1, 0⟩ (by norm_num [bottomMargin]),
   page_break_check_contract.2.2.2.2.2.1 ⟨100, 1, 0⟩ (by norm_num [bottomMargin]),
   (page_break_check_contract.2.2.2.2.2.2.2.2.2.2.2.1 1 2 none none ⟨400, 1, 0⟩ hq).1,
   (page_break_check_contract.2.2.2.2.2.2.2.2.2.2.2.1 1 2 none none ⟨400, 1, 0⟩ hq).2⟩

/-! ## C2: cursor bounds at draw time -/

theorem ensure_y_bounds (h : ℚ) (s : PDF) (hh : 0 ≤ h) (hs : s.y ≤ topCursor) :
    bottomMargin ≤ (ensure h s).y ∧ (ensure h s).y ≤ topCursor := by
  unfold ensure
  split
  · unfold newPageS
    norm_num [bottomMargin, topCursor, pageHeight]
  · next hc =>
    push_neg at hc
    exact ⟨by linarith, hs⟩

theorem capWidth_snd_nonneg (p : ℚ × ℚ) (h2 : 0 ≤ p.2) : 0 ≤ (capWidth p).2 := by
  simp only [capWidth]
  split
  · next hgt =>
    have husable : (0 : ℚ) < usableWidth := by norm_num [usableWidth, pageWidth]
    have hp1 : 0 < p.1 := lt_trans husable hgt
    exact mul_nonneg h2 (div_nonneg husable.le hp1.le)
  · exact h2

theorem drawSizeRaw_snd_nonneg (w h : ℚ) (pw ph : Option ℚ) (hw : 0 < w) (hh : 0 ≤ h)
    (hpwd : 0 ≤ pw.getD landscapeWidth) (hphd : 0 ≤ ph.getD portraitHeight) :
    0 ≤ (drawSizeRaw w h pw ph).2 := by
  simp only [drawSizeRaw]
  split
  · exact hphd
  · exact mul_nonneg hpwd (div_nonneg hh hw.le)

theorem drawSize_snd_nonneg (w h : ℚ) (pw ph : Option ℚ) (hw : 0 < w) (hh : 0 ≤ h)
    (hpw : ∀ x ∈ pw, 0 ≤ x) (hph : ∀ x ∈ ph, 0 ≤ x) :
    0 ≤ (drawSize w h pw ph).2 := by
  have hpwd : 0 ≤ pw.getD landscapeWidth := by
    cases pw with
    | none => norm_num [landscapeWidth]
    | some x => exact hpw x rfl
  have hphd : 0 ≤ ph.getD portraitHeight := by
    cases ph with
    | none => norm_num [portraitHeight]
    | some x => exact hph x rfl
  exact capWidth_snd_nonneg _ (drawSizeRaw_snd_nonneg w h pw ph hw hh hpwd hphd)

theorem sideBySideLayout_h_nonneg (iw1 ih1 iw2 ih2 : ℚ) (ph gapOpt : Option ℚ) (c : Bool)
    (hph : ∀ x ∈ ph, 0 ≤ x) :
    0 ≤ (sideBySideLayout iw1 ih1 iw2 ih2 ph gapOpt c).h1 ∧
    0 ≤ (sideBySideLayout iw1 ih1 iw2 ih2 ph gapOpt c).h2 := by
  have hphd : 0 ≤ ph.getD portraitHeight := by
    cases ph with
    | none => norm_num [portraitHeight]
    | some x => exact hph x rfl
  simp only [sideBySideLayout]
  split
  · next hgt =>
    have husable : (0 : ℚ) < usableWidth := by norm_num [usableWidth, pageWidth]
    have htot := lt_trans husable hgt
    have hscale := div_nonneg husable.le htot.le
    exact ⟨mul_nonneg hphd hscale, mul_nonneg hphd hscale⟩
  · exact ⟨hphd, hphd⟩

theorem headingOp_bounds (s : PDF) (hs : s.y ≤ topCursor) :
    (headingOp s).1.y ≤ topCursor ∧
    ∀ c ∈ (headingOp s).2, bottomMargin - 20 ≤ c ∧ c ≤ topCursor := by
  obtain ⟨h1, h2⟩ := ensure_y_bounds 0 s le_rfl hs
  simp only [headingOp]
  refine ⟨by linarith, ?_⟩
  intro c hc
  simp only [List.mem_singleton] at hc
  subst hc
  exact ⟨by linarith, h2⟩

theorem shortTextOp_bounds (s : PDF) (hs : s.y ≤ topCursor) :
    (shortTextOp s).1.y ≤ topCursor ∧
    ∀ c ∈ (shortTextOp s).2, bottomMargin - 20 ≤ c ∧ c ≤ topCursor := by
  obtain ⟨h1, h2⟩ := ensure_y_bounds 0 s le_rfl hs
  simp only [shortTextOp]
  refine ⟨by linarith, ?_⟩
  intro c hc
  simp only [List.mem_singleton] at hc
  subst hc
  exact ⟨by linarith, h2⟩

theorem shortTextWithRightOp_bounds (lw rw' : ℚ) (s : PDF) (hs : s.y ≤ topCursor) :
    (shortTextWithRightOp lw rw' s).1.y ≤ topCursor ∧
    ∀ c ∈ (shortTextWithRightOp lw rw' s).2, bottomMargin - 20 ≤ c ∧ c ≤ topCursor := by
  obtain ⟨h1, h2⟩ := ensure_y_bounds 0 s le_rfl hs
  simp only [shortTextWithRightOp]
  split
  · refine ⟨show (ensure 0 s).y - 40 ≤ topCursor by linarith, ?_⟩
    intro c hc
    simp only [List.mem_cons, List.mem_singleton, List.not_mem_nil, or_false] at hc
    rcases hc with rfl | rfl
    · exact ⟨by linarith, h2⟩
    · exact ⟨by linarith, by linarith⟩
  · refine ⟨show (ensure 0 s).y - 20 ≤ topCursor by linarith, ?_⟩
    intro c hc
    simp only [List.mem_cons, List.mem_singleton, List.not_mem_nil, or_false] at hc
    rcases hc with rfl | rfl <;> exact ⟨by linarith, h2⟩

theorem longLine_bounds (s : PDF) (hs : s.y ≤ topCursor) :
    (longLine s).1.y ≤ topCursor ∧
    ∀ c ∈ (longLine s).2, bottomMargin - 20 ≤ c ∧ c ≤ topCursor := by
  obtain ⟨h1, h2⟩ := ensure_y_bounds 0 s le_rfl hs
  simp only [longLine]
  refine ⟨by linarith, ?_⟩
  intro c hc
  simp only [List.mem_singleton] at hc
  subst hc
  exact ⟨by linarith, h2⟩

theorem longLinesRun_bounds (ls : List (List Char)) :
    ∀ s : PDF, s.y ≤ topCursor →
      (longLinesRun ls s).1.y ≤ topCursor ∧
      ∀ c ∈ (longLinesRun ls s).2, bottomMargin - 20 ≤ c ∧ c ≤ topCursor := by
  induction ls with
  | nil =>
    intro s hs
    exact ⟨hs, by intro c hc; simp [longLinesRun] at hc⟩
  | cons l ls ih =>
    intro s hs
    obtain ⟨ha, hb⟩ := longLine_bounds s hs
    obtain ⟨hc, hd⟩ := ih (longLine s).1 ha
    refine ⟨hc, ?_⟩
    intro x hx
    simp only [longLinesRun, List.mem_append] at hx
    rcases hx with hx | hx
    exacts [hb x hx, hd x hx]

theorem longTextOp_bounds (sw : List Char → ℚ) (t : Option (List Char)) (s : PDF)
    (hs : s.y ≤ topCursor) :
    (longTextOp sw t s).1.y ≤ topCursor ∧
    ∀ c ∈ (longTextOp sw t s).2, bottomMargin - 20 ≤ c ∧ c ≤ topCursor := by
  cases t with
  | none => exact ⟨hs, by intro c hc; simp [longTextOp] at hc⟩
  | some txt =>
    have hpre : (⟨s.y - 10, s.page, s.breaks⟩ : PDF).y ≤ topCursor := by
      simp only
      linarith
    obtain ⟨ha, hb⟩ :=
      longLinesRun_bounds (wrap_text sw txt usableWidth) ⟨s.y - 10, s.page, s.breaks⟩ hpre
    simp only [longTextOp]
    exact ⟨by linarith, hb⟩

theorem photoOp_bounds (w h : ℚ) (pw ph : Option ℚ) (s : PDF)
    (hdh : 0 ≤ (drawSize w h pw ph).2) (hs : s.y ≤ topCursor) :
    (photoOp w h pw ph s).1.y ≤ topCursor ∧
    ∀ c ∈ (photoOp w h pw ph s).2, bottomMargin - 20 ≤ c ∧ c ≤ topCursor := by
  obtain ⟨h1, h2⟩ := ensure_y_bounds _ s hdh hs
  simp only [photoOp]
  refine ⟨by linarith, ?_⟩
  intro c hc
  simp only [List.mem_singleton] at hc
  subst hc
  exact ⟨by linarith, h2⟩

theorem photoPairOp_bounds (iw1 ih1 iw2 ih2 : ℚ) (ph gapOpt : Option ℚ) (cn : Bool) (s : PDF)
    (hw1 : 0 < iw1) (hh1 : 0 ≤ ih1) (hw2 : 0 < iw2) (hh2 : 0 ≤ ih2)
    (hph : ∀ x ∈ ph, 0 ≤ x) (hs : s.y ≤ topCursor) :
    (photoPairOp iw1 ih1 iw2 ih2 ph gapOpt cn s).1.y ≤ topCursor ∧
    ∀ c ∈ (photoPairOp iw1 ih1 iw2 ih2 ph gapOpt cn s).2,
      bottomMargin - 20 ≤ c ∧ c ≤ topCursor := by
  by_cases hp : ih1 > iw1 ∧ ih2 > iw2
  · have hpair : 0 ≤ max (sideBySideLayout iw1 ih1 iw2 ih2 ph gapOpt cn).h1
        (sideBySideLayout iw1 ih1 iw2 ih2 ph gapOpt cn).h2 :=
      le_trans (sideBySideLayout_h_nonneg iw1 ih1 iw2 ih2 ph gapOpt cn hph).1
        (le_max_left _ _)
    obtain ⟨h1, h2⟩ := ensure_y_bounds _ s hpair hs
    simp only [photoPairOp, if_pos hp]
    refine ⟨by linarith, ?_⟩
    intro c hc
    simp only [List.mem_cons, List.mem_singleton, List.not_mem_nil, or_false,
      or_self] at hc
    subst hc
    exact ⟨by linarith, h2⟩
  · have hd1 : 0 ≤ (drawSize iw1 ih1 none ph).2 :=
      drawSize_snd_nonneg iw1 ih1 none ph hw1 hh1 (by intro x hx; cases hx) hph
    have hd2 : 0 ≤ (drawSize iw2 ih2 none ph).2 :=
      drawSize_snd_nonneg iw2 ih2 none ph hw2 hh2 (by intro x hx; cases hx) hph
    obtain ⟨ha, hb⟩ := photoOp_bounds iw1 ih1 none ph s hd1 hs
    obtain ⟨hc, hd⟩ := photoOp_bounds iw2 ih2 none ph (photoOp iw1 ih1 none ph s).1 hd2 ha
    simp only [photoPairOp, if_neg hp]
    refine ⟨hc, ?_⟩
    intro x hx
    simp only [List.mem_append] at hx
    rcases hx with hx | hx
    exacts [hb x hx, hd x hx]

theorem runOp_bounds (sw : List Char → ℚ) (op : Op) (s : PDF) (hv : op.valid)
    (hs : s.y ≤ topCursor) :
    (runOp sw op s).1.y ≤ topCursor ∧
    ∀ c ∈ (runOp sw op s).2, bottomMargin - 20 ≤ c ∧ c ≤ topCursor := by
  cases op with
  | heading => exact headingOp_bounds s hs
  | shortText => exact shortTextOp_bounds s hs
  | shortTextRight lw rw' => exact shortTextWithRightOp_bounds lw rw' s hs
  | longText t => exact longTextOp_bounds sw t s hs
  | photo w h pw ph =>
    obtain ⟨hw, hh, hpw, hph⟩ := hv
    exact photoOp_bounds w h pw ph s (drawSize_snd_nonneg w h pw ph hw hh hpw hph) hs
  | photoPair w1 h1 w2 h2 ph gap c =>
    obtain ⟨hw1, hh1, hw2, hh2, hph, _⟩ := hv
    exact photoPairOp_bounds w1 h1 w2 h2 ph gap c s hw1 hh1 hw2 hh2 hph hs

theorem runOps_bounds (sw : List Char → ℚ) (ops : List Op) :
    ∀ s : PDF, (∀ op ∈ ops, op.valid) → s.y ≤ topCursor →
      (runOps sw ops s).1.y ≤ topCursor ∧
      ∀ c ∈ (runOps sw ops s).2, bottomMargin - 20 ≤ c ∧ c ≤ topCursor := by
  induction ops with
  | nil =>
    intro s _ hs
    exact ⟨hs, by intro c hc; simp [runOps] at hc⟩
  | cons op ops ih =>
    intro s hv hs
    obtain ⟨h1, h2⟩ := runOp_bounds sw op s (hv op (by simp)) hs
    obtain ⟨h3, h4⟩ := ih (runOp sw op s).1 (fun o ho => hv o (by simp [ho])) h1
    refine ⟨h3, ?_⟩
    intro c hc
    simp only [runOps, List.mem_append] at hc
    rcases hc with hc | hc
    exacts [h2 c hc, h4 c hc]

/-- The placement sequence witnessing the C2 counterexample: a portrait photo
with `photo_height=680` leaves the cursor at 62, then a dual-column line whose
right text collides pushes its right draw one line down, to cursor 42 — below
the bottom margin 50. -/
def cursorCexOps : List Op :=
  [Op.photo 1 2 none (some 680), Op.shortTextRight 300 300]

/-- C2 counterexample: a sequence of well-formed placement operations from
the initial state whose draw trace contains the cursor position 42, which
lies outside `[bottomMargin, pageHeight - topMargin] = [50, 762]` — the
pushed-down right column of `short_text_with_right` draws below the bottom
margin without a preceding page break, so the claimed invariant is false. -/
theorem cursor_in_range_counterexample :
    (∀ op ∈ cursorCexOps, op.valid) ∧
    ¬(∀ c ∈ (runOps (fun _ => 0) cursorCexOps initPDF).2,
        bottomMargin ≤ c ∧ c ≤ topCursor) := by
  have htrace : (runOps (fun _ => 0) cursorCexOps initPDF).2 = [762, 62, 42] := by
    norm_num [cursorCexOps, runOps, runOp, photoOp, shortTextWithRightOp, drawSize,
      drawSizeRaw, capWidth, ensure, newPageS, initPDF, topCursor, pageHeight,
      bottomMargin, usableWidth, pageWidth, portraitHeight]
  constructor
  · intro op hop
    simp only [cursorCexOps, List.mem_cons, List.mem_singleton, List.not_mem_nil,
      or_false] at hop
    rcases hop with rfl | rfl
    · refine ⟨by norm_num, by norm_num, ?_, ?_⟩
      · intro x hx
        simp at hx
      · intro x hx
        simp only [Option.mem_def, Option.some_inj] at hx
        subst hx
        norm_num
    · trivial
  · intro hall
    have h42 := hall 42 (by rw [htrace]; simp)
    rw [bottomMargin_eq] at h42
    have := h42.1
    norm_num at this

/-- C2 amended: the cursor recorded at the moment of every draw of every
well-formed placement sequence lies within
`[bottomMargin - 20, pageHeight - topMargin] = [30, 762]`: only the
pushed-down right column of a dual-column line can draw below the bottom
margin, and then by at most one 20-unit line advance; every other draw occurs
at or above the bottom margin, and a page break always precedes any draw
whose placement's own check fails. -/
theorem draw_cursor_bounds (sw : List Char → ℚ) (ops : List Op)
    (hv : ∀ op ∈ ops, op.valid) :
    ∀ c ∈ (runOps sw ops initPDF).2, bottomMargin - 20 ≤ c ∧ c ≤ topCursor :=
  (runOps_bounds sw ops initPDF hv (by norm_num [initPDF])).2

/-- Witness for `draw_cursor_bounds` on a concrete one-heading sequence. -/
theorem draw_cursor_bounds_witness :
    bottomMargin - 20 ≤ (762 : ℚ) ∧ (762 : ℚ) ≤ topCursor :=
  draw_cursor_bounds (fun _ => 0) [Op.heading]
    (by
      intro op hop
      simp only [List.mem_singleton] at hop
      subst hop
      trivial)
    762
    (by norm_num [runOps, runOp, headingOp, ensure, newPageS, initPDF, topCursor,
      pageHeight, bottomMargin])

/-! ## C5: the photo pairing scan -/

/-- Flatten a list of placement events to the covered image dimensions, in
placement order. -/
def evFlatten : List PEv → List (ℚ × ℚ)
  | [] => []
  | e :: es => evImgs e ++ evFlatten es

theorem scanPhotos_pair_step (a b : ℚ × ℚ) (ps : List (Option (ℚ × ℚ)))
    (h1 : a.2 > a.1) (h2 : b.2 > b.1) :
    scanPhotos (some a :: some b :: ps) =
      (scanPhotos ps).map (fun es => PEv.pair a.1 a.2 b.1 b.2 :: es) := by
  simp only [scanPhotos]
  rw [if_pos ⟨h1, h2⟩]
  cases scanPhotos ps <;> rfl

theorem scanPhotos_nonpair_step (a b : ℚ × ℚ) (ps : List (Option (ℚ × ℚ)))
    (h : ¬(a.2 > a.1 ∧ b.2 > b.1)) :
    scanPhotos (some a :: some b :: ps) =
      (scanPhotos (some b :: ps)).map (fun es => PEv.single a.1 a.2 :: es) := by
  simp only [scanPhotos]
  rw [if_neg h]
  cases h2 : scanPhotos (some b :: ps) <;>
    simp [placeSingle, h2, Except.map, Except.bind, bind, pure, Except.pure]

theorem scan_places_each_once_aux :
    ∀ (n : Nat) (qs : List (ℚ × ℚ)), qs.length ≤ n →
      ∃ es, scanPhotos (qs.map some) = .ok es ∧ evFlatten es = qs ∧
        ∀ e ∈ es, ∀ w1 h1 w2 h2, e = PEv.pair w1 h1 w2 h2 → h1 > w1 ∧ h2 > w2 := by
  intro n
  induction n with
  | zero =>
    intro qs hlen
    have hq : qs = [] := List.eq_nil_of_length_eq_zero (Nat.le_zero.mp hlen)
    subst hq
    exact ⟨[], rfl, rfl, by intro e he; cases he⟩
  | succ n ih =>
    intro qs hlen
    match qs with
    | [] => exact ⟨[], rfl, rfl, by intro e he; cases he⟩
    | [a] =>
      refine ⟨[PEv.single a.1 a.2], rfl, ?_, ?_⟩
      · simp [evFlatten, evImgs]
      · intro e he w1 h1 w2 h2 hee
        simp only [List.mem_singleton] at he
        subst he
        cases hee
    | a :: b :: rest =>
      have hlr : rest.length ≤ n := by
        simp only [List.length_cons] at hlen
        omega
      have hlbr : (b :: rest).length ≤ n := by
        simp only [List.length_cons] at hlen ⊢
        omega
      by_cases hp : a.2 > a.1 ∧ b.2 > b.1
      · obtain ⟨es, he1, he2, he3⟩ := ih rest hlr
        refine ⟨PEv.pair a.1 a.2 b.1 b.2 :: es, ?_, ?_, ?_⟩
        · rw [List.map_cons, List.map_cons, scanPhotos_pair_step a b _ hp.1 hp.2, he1]
          rfl
        · simp [evFlatten, evImgs, he2]
        · intro e he w1 h1 w2 h2 hee
          rcases List.mem_cons.mp he with rfl | hmem
          · cases hee
            exact hp
          · exact he3 e hmem w1 h1 w2 h2 hee
      · obtain ⟨es, he1, he2, he3⟩ := ih (b :: rest) hlbr
        refine ⟨PEv.single a.1 a.2 :: es, ?_, ?_, ?_⟩
        · rw [List.map_cons, List.map_cons, scanPhotos_nonpair_step a b _ hp]
          rw [List.map_cons] at he1
          rw [he1]
          rfl
        · simp only [evFlatten, evImgs, he2, List.singleton_append]
        · intro e he w1 h1 w2 h2 hee
          rcases List.mem_cons.mp he with rfl | hmem
          · cases hee
          · exact he3 e hmem w1 h1 w2 h2 hee

/-- C5: the pairing scan of a step's photo sequence.  (i) When every photo's
dimensions are readable, the scan succeeds, places every photo exactly once
and in order, and every side-by-side event pairs two portrait images.
(ii) Two adjacent readable portraits are paired in one block and the scan
advances past both.  (iii) A readable adjacent pair that is not
portrait+portrait places the first image alone and re-evaluates from the
second.  (iv) If probing either image of the window raises, the pair is
treated as not-a-pair: the first photo is routed to single placement and the
scan re-evaluates from the second (single placement itself re-raises on the
unreadable photo).  (v) A portrait side-by-side block consumes
`max(h1, h2) + 20` cursor units from the post-check cursor. -/
theorem photo_pairing_scan :
    (∀ qs : List (ℚ × ℚ), ∃ es, scanPhotos (qs.map some) = .ok es ∧
      evFlatten es = qs ∧
      ∀ e ∈ es, ∀ w1 h1 w2 h2, e = PEv.pair w1 h1 w2 h2 → h1 > w1 ∧ h2 > w2) ∧
    (∀ (a b : ℚ × ℚ) ps, a.2 > a.1 → b.2 > b.1 →
      scanPhotos (some a :: some b :: ps) =
        (scanPhotos ps).map (fun es => PEv.pair a.1 a.2 b.1 b.2 :: es)) ∧
    (∀ (a b : ℚ × ℚ) ps, ¬(a.2 > a.1 ∧ b.2 > b.1) →
      scanPhotos (some a :: some b :: ps) =
        (scanPhotos (some b :: ps)).map (fun es => PEv.single a.1 a.2 :: es)) ∧
    (∀ (p q : Option (ℚ × ℚ)) ps, p = none ∨ q = none →
      scanPhotos (p :: q :: ps) = do
        let e ← placeSingle p
        let es ← scanPhotos (q :: ps)
        pure (e :: es)) ∧
    (∀ (iw1 ih1 iw2 ih2 : ℚ) (ph gapOpt : Option ℚ) (cn : Bool) (s : PDF),
      ih1 > iw1 → ih2 > iw2 →
      (photoPairOp iw1 ih1 iw2 ih2 ph gapOpt cn s).1.y =
        (ensure (max (sideBySideLayout iw1 ih1 iw2 ih2 ph gapOpt cn).h1
            (sideBySideLayout iw1 ih1 iw2 ih2 ph gapOpt cn).h2) s).y -
          (max (sideBySideLayout iw1 ih1 iw2 ih2 ph gapOpt cn).h1
            (sideBySideLayout iw1 ih1 iw2 ih2 ph gapOpt cn).h2 + 20)) := by
  refine ⟨?_, scanPhotos_pair_step, scanPhotos_nonpair_step, ?_, ?_⟩
  · intro qs
    exact scan_places_each_once_aux qs.length qs le_rfl
  · intro p q ps hpq
    rcases hpq with rfl | rfl
    · rfl
    · cases p with
      | none => rfl
      | some a => rfl
  · intro iw1 ih1 iw2 ih2 ph gapOpt cn s hp1 hp2
    simp only [photoPairOp, if_pos (show ih1 > iw1 ∧ ih2 > iw2 from ⟨hp1, hp2⟩)]
    ring

/-- Witness for `photo_pairing_scan`: the error-fallback equation at a
concrete unreadable first photo, and the pair-step equation at two concrete
portraits. -/
theorem photo_pairing_scan_witness :
    scanPhotos [none, some (1, 1)] = (do
      let e ← placeSingle none
      let es ← scanPhotos [some (1, 1)]
      pure (e :: es)) ∧
    scanPhotos [some (1, 2), some (1, 3)] =
      (scanPhotos []).map (fun es => PEv.pair 1 2 1 3 :: es) :=
  ⟨photo_pairing_scan.2.2.2.1 none (some (1, 1)) [] (Or.inl rfl),
   photo_pairing_scan.2.1 (1, 2) (1, 3) [] (by norm_num) (by norm_num)⟩

/-! ## C3/C4: word-wrap lemmas -/

/-- A word contains no whitespace character. -/
def noSpace (w : List Char) : Prop := ∀ c ∈ w, pyIsSpace c = false

theorem wordsAux_cons_space {c : Char} (h : pyIsSpace c = true) (u acc : List Char) :
    wordsAux (c :: u) acc = if acc = [] then wordsAux u [] else acc :: wordsAux u [] := by
  simp [wordsAux, h]

theorem wordsAux_cons_nonspace {c : Char} (h : pyIsSpace c = false) (u acc : List Char) :
    wordsAux (c :: u) acc = wordsAux u (acc ++ [c]) := by
  simp [wordsAux, h]

/-- Every word produced by the splitter is nonempty and whitespace-free. -/
theorem wordsAux_mem (t : List Char) : ∀ acc, noSpace acc →
    ∀ w ∈ wordsAux t acc, w ≠ [] ∧ noSpace w := by
  induction t with
  | nil =>
    intro acc hacc w hw
    by_cases h : acc = []
    · simp [wordsAux, h] at hw
    · simp only [wordsAux, if_neg h, List.mem_singleton] at hw
      subst hw
      exact ⟨h, hacc⟩
  | cons c cs ih =>
    intro acc hacc w hw
    cases hc : pyIsSpace c with
    | true =>
      rw [wordsAux_cons_space hc] at hw
      by_cases h : acc = []
      · rw [if_pos h] at hw
        exact ih [] (by intro x hx; simp at hx) w hw
      · rw [if_neg h] at hw
        rcases List.mem_cons.mp hw with rfl | hw2
        · exact ⟨h, hacc⟩
        · exact ih [] (by intro x hx; simp at hx) w hw2
    | false =>
      rw [wordsAux_cons_nonspace hc] at hw
      refine ih (acc ++ [c]) ?_ w hw
      intro x hx
      rcases List.mem_append.mp hx with hx | hx
      · exact hacc x hx
      · simp only [List.mem_singleton] at hx
        subst hx
        exact hc

/-- Splitting distributes over an explicit separating space. -/
theorem wordsAux_append_space (b : List Char) :
    ∀ (a acc : List Char), wordsAux (a ++ (' ' :: b)) acc = wordsAux a acc ++ wordsAux b [] := by
  intro a
  induction a with
  | nil =>
    intro acc
    rw [List.nil_append, wordsAux_cons_space (by decide)]
    by_cases h : acc = []
    · simp [wordsAux, h]
    · simp [wordsAux, h]
  | cons c a ih =>
    intro acc
    cases hc : pyIsSpace c with
    | true =>
      rw [List.cons_append, wordsAux_cons_space hc, wordsAux_cons_space hc]
      by_cases h : acc = []
      · simp [h, ih]
      · simp [h, ih]
    | false =>
      rw [List.cons_append, wordsAux_cons_nonspace hc, wordsAux_cons_nonspace hc, ih]

theorem pyWords_append_space (a b : List Char) :
    pyWords (a ++ (' ' :: b)) = pyWords a ++ pyWords b :=
  wordsAux_append_space b a []

/-- A whitespace-free run is a single word (prefixed by the accumulator). -/
theorem wordsAux_run (a : List Char) (ha : noSpace a) :
    ∀ acc, wordsAux a acc = if acc ++ a = [] then [] else [acc ++ a] := by
  induction a with
  | nil =>
    intro acc
    simp [wordsAux]
  | cons c a ih =>
    intro acc
    have hc : pyIsSpace c = false := ha c (by simp)
    have ha' : noSpace a := fun x hx => ha x (by simp [hx])
    rw [wordsAux_cons_nonspace hc, ih ha' (acc ++ [c])]
    have hne : acc ++ [c] ++ a ≠ [] := by simp
    have hne2 : acc ++ c :: a ≠ [] := by simp
    rw [if_neg hne, if_neg hne2]
    simp

/-- Splitting a string of pure whitespace yields only the accumulator. -/
theorem wordsAux_allSpace (s : List Char) (hs : ∀ c ∈ s, pyIsSpace c = true) :
    ∀ acc, wordsAux s acc = if acc = [] then [] else [acc] := by
  induction s with
  | nil => intro acc; simp [wordsAux]
  | cons c s ih =>
    intro acc
    have hc : pyIsSpace c = true := hs c (by simp)
    have hs' : ∀ x ∈ s, pyIsSpace x = true := fun x hx => hs x (by simp [hx])
    rw [wordsAux_cons_space hc, ih hs' []]
    by_cases h : acc = [] <;> simp [h]

/-- Leading whitespace does not affect the word list. -/
theorem pyWords_dropWhile_front (t : List Char) :
    pyWords (t.dropWhile pyIsSpace) = pyWords t := by
  induction t with
  | nil => rfl
  | cons c t ih =>
    cases hc : pyIsSpace c with
    | true =>
      rw [List.dropWhile_cons_of_pos (by simp [hc])]
      rw [ih]
      unfold pyWords
      rw [wordsAux_cons_space hc, if_pos rfl]
    | false =>
      rw [List.dropWhile_cons_of_neg (by simp [hc])]

/-- Trailing whitespace does not affect the word list. -/
theorem wordsAux_append_trailing (s : List Char) (hs : ∀ c ∈ s, pyIsSpace c = true) :
    ∀ (t acc : List Char), wordsAux (t ++ s) acc = wordsAux t acc := by
  intro t
  induction t with
  | nil =>
    intro acc
    rw [List.nil_append, wordsAux_allSpace s hs acc]
    simp [wordsAux]
  | cons c t ih =>
    intro acc
    cases hc : pyIsSpace c with
    | true =>
      rw [List.cons_append, wordsAux_cons_space hc, wordsAux_cons_space hc, ih]
    | false =>
      rw [List.cons_append, wordsAux_cons_nonspace hc, wordsAux_cons_nonspace hc, ih]

/-- `strip()` does not affect the word list. -/
theorem pyWords_pyStrip (t : List Char) : pyWords (pyStrip t) = pyWords t := by
  set u := t.dropWhile pyIsSpace with hu
  have hdecomp : u = (u.reverse.dropWhile pyIsSpace).reverse ++
      (u.reverse.takeWhile pyIsSpace).reverse := by
    have h1 : u.reverse.takeWhile pyIsSpace ++ u.reverse.dropWhile pyIsSpace = u.reverse :=
      List.takeWhile_append_dropWhile pyIsSpace u.reverse
    calc u = u.reverse.reverse := (List.reverse_reverse u).symm
    _ = (u.reverse.takeWhile pyIsSpace ++ u.reverse.dropWhile pyIsSpace).reverse := by
        rw [h1]
    _ = (u.reverse.dropWhile pyIsSpace).reverse ++ (u.reverse.takeWhile pyIsSpace).reverse := by
        rw [List.reverse_append]
  have hsp : ∀ c ∈ (u.reverse.takeWhile pyIsSpace).reverse, pyIsSpace c = true := by
    intro c hc
    rw [List.mem_reverse] at hc
    exact List.mem_takeWhile_imp hc
  have : pyWords u = pyWords ((u.reverse.dropWhile pyIsSpace).reverse) := by
    conv_lhs => rw [hdecomp]
    exact wordsAux_append_trailing _ hsp _ []
  calc pyWords (pyStrip t) = pyWords ((u.reverse.dropWhile pyIsSpace).reverse) := rfl
  _ = pyWords u := this.symm
  _ = pyWords t := pyWords_dropWhile_front t

/-- Remove the forced-break sentinel words from a word list. -/
def dropSentinels : List (List Char) → List (List Char)
  | [] => []
  | w :: ws => if w = sentinel then dropSentinels ws else w :: dropSentinels ws

theorem dropSentinels_eq_self (ws : List (List Char)) (h : sentinel ∉ ws) :
    dropSentinels ws = ws := by
  induction ws with
  | nil => rfl
  | cons w ws ih =>
    have hw : w ≠ sentinel := by
      intro he
      exact h (by simp [he])
    have h2 : sentinel ∉ ws := fun hm => h (by simp [hm])
    simp [dropSentinels, hw, ih h2]

/-- Concatenated word content of a list of lines. -/
def linesWords : List (List Char) → List (List Char)
  | [] => []
  | l :: ls => pyWords l ++ linesWords ls

theorem pyWords_nil : pyWords [] = [] := rfl

/-- The words of the space-rejoined lines are the concatenated words of the
lines. -/
theorem joinLines_words : ∀ ls, pyWords (joinLines ls) = linesWords ls := by
  intro ls
  induction ls with
  | nil => rfl
  | cons l ls ih =>
    cases ls with
    | nil => simp [joinLines, linesWords, pyWords_nil]
    | cons l2 ls2 =>
      have hj : joinLines (l :: l2 :: ls2) = l ++ (' ' :: joinLines (l2 :: ls2)) := rfl
      rw [hj, pyWords_append_space, ih]
      rfl

/-- The sentinel is a nonempty whitespace-free word. -/
theorem sentinel_noSpace : noSpace sentinel := by
  intro c hc
  fin_cases hc <;> rfl

theorem noSpace_nil : noSpace [] := by
  intro c hc
  simp at hc

/-- Replacing each newline with a spaced-out sentinel only inserts sentinel
words: after removing sentinels, the word list is that of the original text. -/
theorem wordsAux_subst_filter : ∀ (t : List Char) (acc : List Char), noSpace acc →
    dropSentinels (wordsAux (substNewline t) acc) = dropSentinels (wordsAux t acc) := by
  intro t
  induction t with
  | nil => intro acc _; rfl
  | cons c cs ih =>
    intro acc hacc
    by_cases hnl : c = '\n'
    · subst hnl
      have hsub : substNewline ('\n' :: cs) =
          ' ' :: (sentinel ++ (' ' :: substNewline cs)) := by
        simp [substNewline]
      rw [hsub, wordsAux_cons_space (by decide),
        wordsAux_append_space (substNewline cs) sentinel [],
        wordsAux_run sentinel sentinel_noSpace [],
        wordsAux_cons_space (show pyIsSpace '\n' = true by decide)]
      have hih := ih [] noSpace_nil
      by_cases h : acc = []
      · rw [if_pos h, if_pos h]
        rw [if_neg (show ([] : List Char) ++ sentinel ≠ [] by simp [sentinel])]
        simp only [List.nil_append, List.singleton_append]
        rw [show dropSentinels (sentinel :: wordsAux (substNewline cs) []) =
            dropSentinels (wordsAux (substNewline cs) []) by simp [dropSentinels]]
        exact hih
      · rw [if_neg h, if_neg h]
        rw [if_neg (show ([] : List Char) ++ sentinel ≠ [] by simp [sentinel])]
        simp only [List.nil_append, List.singleton_append]
        by_cases has : acc = sentinel
        · rw [show dropSentinels (acc :: sentinel :: wordsAux (substNewline cs) []) =
              dropSentinels (wordsAux (substNewline cs) []) by simp [dropSentinels, has]]
          rw [show dropSentinels (acc :: wordsAux cs []) =
              dropSentinels (wordsAux cs []) by simp [dropSentinels, has]]
          exact hih
        · rw [show dropSentinels (acc :: sentinel :: wordsAux (substNewline cs) []) =
              acc :: dropSentinels (wordsAux (substNewline cs) []) by
                simp [dropSentinels, has]]
          rw [show dropSentinels (acc :: wordsAux cs []) =
              acc :: dropSentinels (wordsAux cs []) by simp [dropSentinels, has]]
          rw [hih]
    · have hsub : substNewline (c :: cs) = c :: substNewline cs := by
        simp [substNewline, hnl]
      rw [hsub]
      cases hc : pyIsSpace c with
      | true =>
        rw [wordsAux_cons_space hc, wordsAux_cons_space hc]
        have hih := ih [] noSpace_nil
        by_cases h : acc = []
        · rw [if_pos h, if_pos h]
          exact hih
        · rw [if_neg h, if_neg h]
          by_cases has : acc = sentinel <;> simp [dropSentinels, has, hih]
      | false =>
        rw [wordsAux_cons_nonspace hc, wordsAux_cons_nonspace hc]
        refine ih (acc ++ [c]) ?_
        intro x hx
        rcases List.mem_append.mp hx with hx | hx
        · exact hacc x hx
        · simp only [List.mem_singleton] at hx
          subst hx
          exact hc

/-- Content preservation of the wrap loop: the concatenated words of the
produced lines are the current line's words followed by the non-sentinel
input words. -/
theorem wrapLoop_content (sw : List Char → ℚ) (mw : ℚ) :
    ∀ (ws : List (List Char)) (cur : List Char),
      (∀ w ∈ ws, w ≠ [] ∧ noSpace w) →
      linesWords (wrapLoop sw mw ws cur) = pyWords cur ++ dropSentinels ws := by
  intro ws
  induction ws with
  | nil =>
    intro cur _
    simp [wrapLoop, linesWords, dropSentinels]
  | cons w ws ih =>
    intro cur hws
    obtain ⟨hne, hns⟩ := hws w (by simp)
    have hws2 : ∀ v ∈ ws, v ≠ [] ∧ noSpace v := fun v hv => hws v (by simp [hv])
    have hwords : pyWords w = [w] := by
      unfold pyWords
      rw [wordsAux_run w hns []]
      simp [hne]
    by_cases hsent : w = sentinel
    · simp only [wrapLoop, if_pos hsent]
      have : linesWords (cur :: wrapLoop sw mw ws []) =
          pyWords cur ++ linesWords (wrapLoop sw mw ws []) := rfl
      rw [this, ih [] hws2, pyWords_nil, List.nil_append]
      rw [show dropSentinels (w :: ws) = dropSentinels ws by simp [dropSentinels, hsent]]
    · simp only [wrapLoop, if_neg hsent]
      have htest : pyWords (pyStrip (cur ++ (' ' :: w))) = pyWords cur ++ [w] := by
        rw [pyWords_pyStrip, pyWords_append_space, hwords]
      by_cases hfit : sw (pyStrip (cur ++ (' ' :: w))) ≤ mw
      · rw [if_pos hfit, ih _ hws2, htest]
        rw [show dropSentinels (w :: ws) = w :: dropSentinels ws by
          simp [dropSentinels, hsent]]
        simp
      · rw [if_neg hfit]
        have : linesWords (cur :: wrapLoop sw mw ws w) =
            pyWords cur ++ linesWords (wrapLoop sw mw ws w) := rfl
        rw [this, ih w hws2, hwords]
        rw [show dropSentinels (w :: ws) = w :: dropSentinels ws by
          simp [dropSentinels, hsent]]
        simp

/-- C3 counterexample: the paragraph text `"<newline>"` (nine literal
characters, no newline) is split into the single word `<newline>`, which
`wrap_text` then treats as a forced-break sentinel; the produced lines are
two empty lines, whose space-rejoined word sequence is empty rather than the
original one-word sequence — the claim fails for texts containing the literal
sentinel token. -/
theorem wrap_preserves_words_counterexample :
    pyWords (joinLines (wrap_text (fun l => (l.length : ℚ)) sentinel 552)) ≠
      pyWords sentinel ∧
    pyWords sentinel = [sentinel] := by
  constructor
  · intro h
    have h1 : wrap_text (fun l => (l.length : ℚ)) sentinel 552 = [[], []] := by
      have hsub : substNewline sentinel = sentinel := by decide
      have hwords : pyWords sentinel = [sentinel] := by decide
      unfold wrap_text
      rw [hsub, hwords]
      simp [wrapLoop]
    rw [h1] at h
    have h2 : pyWords (joinLines ([[], []] : List (List Char))) = [] := by decide
    have h3 : pyWords sentinel = [sentinel] := by decide
    rw [h2, h3] at h
    exact List.noConfusion h
  · decide

/-- C3 amended: for every paragraph text whose whitespace-separated words do
not include the literal string `"<newline>"`, re-joining the lines produced
by `wrap_text` with single spaces (forced-break sentinels having been
consumed as breaks) reproduces exactly the original word sequence — no words
dropped, duplicated, or reordered. -/
theorem wrap_preserves_words (sw : List Char → ℚ) (mw : ℚ) (t : List Char)
    (h : sentinel ∉ pyWords t) :
    pyWords (joinLines (wrap_text sw t mw)) = pyWords t := by
  rw [joinLines_words]
  unfold wrap_text
  rw [wrapLoop_content sw mw (pyWords (substNewline t)) []
    (wordsAux_mem (substNewline t) [] noSpace_nil), pyWords_nil, List.nil_append]
  have h1 : dropSentinels (pyWords (substNewline t)) = dropSentinels (pyWords t) :=
    wordsAux_subst_filter t [] noSpace_nil
  rw [h1, dropSentinels_eq_self (pyWords t) h]

/-- Witness for `wrap_preserves_words` on the concrete text `"hi yo"`. -/
theorem wrap_preserves_words_witness :
    pyWords (joinLines (wrap_text (fun l => (l.length : ℚ))
        ['h', 'i', ' ', 'y', 'o'] 552)) =
      pyWords ['h', 'i', ' ', 'y', 'o'] :=
  wrap_preserves_words (fun l => (l.length : ℚ)) 552 ['h', 'i', ' ', 'y', 'o']
    (by decide)

/-- Every line the wrap loop emits either measured within `mw` when it was
accepted, or is empty, or is a single input word. -/
theorem wrapLoop_width (sw : List Char → ℚ) (mw : ℚ) (W : List (List Char)) :
    ∀ (ws : List (List Char)) (cur : List Char),
      (∀ w ∈ ws, w ∈ W) → (sw cur ≤ mw ∨ cur = [] ∨ cur ∈ W) →
      ∀ l ∈ wrapLoop sw mw ws cur, sw l ≤ mw ∨ l = [] ∨ l ∈ W := by
  intro ws
  induction ws with
  | nil =>
    intro cur _ hcur l hl
    simp only [wrapLoop, List.mem_singleton] at hl
    subst hl
    exact hcur
  | cons w ws ih =>
    intro cur hW hcur l hl
    have hW2 : ∀ v ∈ ws, v ∈ W := fun v hv => hW v (by simp [hv])
    by_cases hsent : w = sentinel
    · simp only [wrapLoop, if_pos hsent] at hl
      rcases List.mem_cons.mp hl with rfl | hl2
      · exact hcur
      · exact ih [] hW2 (Or.inr (Or.inl rfl)) l hl2
    · simp only [wrapLoop, if_neg hsent] at hl
      by_cases hfit : sw (pyStrip (cur ++ (' ' :: w))) ≤ mw
      · rw [if_pos hfit] at hl
        exact ih _ hW2 (Or.inl hfit) l hl
      · rw [if_neg hfit] at hl
        rcases List.mem_cons.mp hl with rfl | hl2
        · exact hcur
        · exact ih w hW2 (Or.inr (Or.inr (hW w (by simp)))) l hl2

/-- C4: provided the measurement service gives the empty string a width
within `mw` (reportlab's `stringWidth("") = 0` does), every line produced by
`wrap_text` measures within `mw`, except lines that are a single
whitespace-free input word whose own measured width exceeds `mw` (emitted as
their own line regardless). -/
theorem wrap_width_bound (sw : List Char → ℚ) (mw : ℚ) (t : List Char)
    (h0 : sw [] ≤ mw) :
    ∀ l ∈ wrap_text sw t mw,
      sw l ≤ mw ∨
        (mw < sw l ∧ l ∈ pyWords (substNewline t) ∧ l ≠ [] ∧ noSpace l) := by
  intro l hl
  have h3 := wrapLoop_width sw mw (pyWords (substNewline t))
    (pyWords (substNewline t)) [] (fun w hw => hw) (Or.inr (Or.inl rfl)) l hl
  rcases h3 with h | h | hW
  · exact Or.inl h
  · subst h
    exact Or.inl h0
  · by_cases hle : sw l ≤ mw
    · exact Or.inl hle
    · obtain ⟨hne, hns⟩ := wordsAux_mem (substNewline t) [] noSpace_nil l hW
      exact Or.inr ⟨not_le.mp hle, hW, hne, hns⟩

/-- Witness for `wrap_width_bound`: with a character-count metric and
`mw = 3`, the text `"aaaa bb"` wraps to `["", "aaaa", "bb"]`; the overlong
line `"aaaa"` is a single input word wider than `mw`. -/
theorem wrap_width_bound_witness :
    (fun l : List Char => (l.length : ℚ)) ['a', 'a', 'a', 'a'] ≤ 3 ∨
      (3 < (fun l : List Char => (l.length : ℚ)) ['a', 'a', 'a', 'a'] ∧
        ['a', 'a', 'a', 'a'] ∈
          pyWords (substNewline ['a', 'a', 'a', 'a', ' ', 'b', 'b']) ∧
        ['a', 'a', 'a', 'a'] ≠ [] ∧ noSpace ['a', 'a', 'a', 'a']) :=
  wrap_width_bound (fun l => (l.length : ℚ)) 3 ['a', 'a', 'a', 'a', ' ', 'b', 'b']
    (by norm_num)
    ['a', 'a', 'a', 'a']
    (by
      have hw : wrap_text (fun l : List Char => (l.length : ℚ))
          ['a', 'a', 'a', 'a', ' ', 'b', 'b'] 3 = [[], ['a', 'a', 'a', 'a'], ['b', 'b']] := by
        have hsub : substNewline ['a', 'a', 'a', 'a', ' ', 'b', 'b'] =
            ['a', 'a', 'a', 'a', ' ', 'b', 'b'] := by decide
        have hwords : pyWords ['a', 'a', 'a', 'a', ' ', 'b', 'b'] =
            [['a', 'a', 'a', 'a'], ['b', 'b']] := by decide
        have hstrip1 : pyStrip ([] ++ (' ' :: ['a', 'a', 'a', 'a'])) =
            ['a', 'a', 'a', 'a'] := by decide
        have hstrip2 : pyStrip (['a', 'a', 'a', 'a'] ++ (' ' :: ['b', 'b'])) =
            ['a', 'a', 'a', 'a', ' ', 'b', 'b'] := by decide
        unfold wrap_text
        rw [hsub, hwords]
        simp only [wrapLoop, if_neg (show ¬['a', 'a', 'a', 'a'] = sentinel by decide),
          if_neg (show ¬['b', 'b'] = sentinel by decide), hstrip1, hstrip2]
        norm_num
      rw [hw]
      simp)
